import Mathlib

/-!
Verification of the servo image cache task
(`src/servo-gfx/resource/image_cache_task.rs`).

The cache is a single actor owning a state map (URL to per-URL image
state), a wait map (URL to the list of reply channels enrolled by
`WaitForImage`), and an optional pending exit channel.  Worker tasks
(prefetchers and decoders) report back through the same inbox.

The shallow embedding below models:
  * URLs, images and reply channels as opaque `Nat` identifiers
    (the code only ever hashes, compares and clones them; `clone_arc`
    on an image handle yields another handle to the same image, so a
    clone is the identity on the identifier);
  * the two hash maps as association lists with replace-on-insert;
  * each message handler as a function from the cache record to
    `Option (cache × events)`, where `none` models a `fail!`
    (abnormal termination of the actor) and the event list records,
    in order, the externally visible effects of the handler: spawning
    a prefetcher (which sends `Load(url)` to the resource service),
    spawning a decoder on a byte buffer, and sends on reply channels;
  * the `run` loop step: dispatch, then — mirroring the
    `replace(&mut self.need_exit, None)` dance, which either consumes
    the pending channel (reply and break) or restores it unchanged —
    the quiescence check over the state map's values;
  * the `Prefetched` cell (`@Cell<~[u8]>` in the source) as
    `Option Buffer`: `some` is a full cell, `none` a taken one, and
    `decode`'s `assert !data_cell.is_empty()` becomes a fatal `none`
    result when the cell is empty.

The observer list registered through `OnMsg` only reads messages
before dispatch and never touches cache state, so it is not modelled;
`OnMsg` is a dispatch no-op.

The body of `purge_waiters` in the source is missing its match head
(`match self.wait_map.find(&url)`), an acknowledged truncation; the
two arms that do survive (drain the waiter list, send the response to
each waiter, remove the entry / do nothing) are transcribed as they
stand.
-/

abbrev Url := Nat

abbrev ChanId := Nat

abbrev Image := Nat

abbrev Buffer := List Nat

/-- Association-list model of the code's `UrlMap`: find the value
bound to a key. -/
def alistFind {α : Type} (k : Nat) : List (Nat × α) → Option α
  | [] => none
  | (k', v) :: rest => if k' = k then some v else alistFind k rest

/-- Association-list model of `UrlMap::insert`: replace the binding
of the key, or append a fresh one. -/
def alistInsert {α : Type} (k : Nat) (v : α) : List (Nat × α) → List (Nat × α)
  | [] => [(k, v)]
  | (k', v') :: rest =>
    if k' = k then (k, v) :: rest else (k', v') :: alistInsert k v rest

/-- Association-list model of `UrlMap::remove`: drop the binding of
the key. -/
def alistRemove {α : Type} (k : Nat) (m : List (Nat × α)) : List (Nat × α) :=
  m.filter (fun p => !(p.1 == k))

/-- The `AfterPrefetch` enum: records whether a `Decode` request
arrived while the prefetch was still in flight. -/
inductive AfterPrefetch
  | DoDecode
  | DoNotDecode
  deriving DecidableEq, Repr

/-- The `ImageState` enum.  `Prefetched` carries the byte-buffer cell:
`some` models a full `@Cell<~[u8]>`, `none` a taken (empty) one. -/
inductive ImageState
  | Init
  | Prefetching (next : AfterPrefetch)
  | Prefetched (cell : Option Buffer)
  | Decoding
  | Decoded (image : Image)
  | Failed
  deriving DecidableEq, Repr

/-- The `ImageResponseMsg` enum sent on consumer reply channels. -/
inductive ImageResponseMsg
  | ImageReady (image : Image)
  | ImageNotReady
  | ImageFailed
  deriving DecidableEq, Repr

instance {ε α : Type} [DecidableEq ε] [DecidableEq α] :
    DecidableEq (Except ε α) := fun a b =>
  match a, b with
  | .error e, .error e' =>
    if h : e = e' then .isTrue (h ▸ rfl)
    else .isFalse (fun hc => h (Except.error.inj hc))
  | .error _, .ok _ => .isFalse (fun hc => Except.noConfusion hc)
  | .ok _, .error _ => .isFalse (fun hc => Except.noConfusion hc)
  | .ok x, .ok y =>
    if h : x = y then .isTrue (h ▸ rfl)
    else .isFalse (fun hc => h (Except.ok.inj hc))

/-- The `Msg` enum carried by the cache actor's inbox.
`StorePrefetchedImageData` carries the prefetcher's result (the
always-full cell around the buffer is elided); `StoreImage` the
decoder's; `OnMsg` registers a read-only observer (payload not
modelled). -/
inductive Msg
  | Prefetch (url : Url)
  | StorePrefetchedImageData (url : Url) (data : Except Unit Buffer)
  | Decode (url : Url)
  | StoreImage (url : Url) (image : Option Image)
  | GetImage (url : Url) (response : ChanId)
  | WaitForImage (url : Url) (response : ChanId)
  | OnMsg
  | Exit (response : ChanId)
  deriving DecidableEq, Repr

/-- Externally visible effects of one handler invocation: spawning a
prefetcher for a URL (the spawned task sends one `Load(url)` to the
resource service), spawning a decoder on a taken byte buffer, a send
on a consumer reply channel, and the send on the exit channel. -/
inductive Event
  | SpawnPrefetch (url : Url)
  | SpawnDecode (url : Url) (data : Buffer)
  | Reply (ch : ChanId) (response : ImageResponseMsg)
  | ExitReply (ch : ChanId)
  deriving DecidableEq, Repr

/-- The mutable state owned by the `ImageCache` actor: the state map,
the wait map, and the pending exit channel (`need_exit`). -/
structure ImageCache where
  state_map : List (Url × ImageState)
  wait_map : List (Url × List ChanId)
  need_exit : Option ChanId
  deriving DecidableEq, Repr

/-- The cache as constructed by `ImageCacheTask_`: both maps empty,
no pending exit. -/
def emptyCache : ImageCache := ⟨[], [], none⟩

/-- Transcribes `ImageCache::get_state`: an absent entry reads as
`Init`. -/
def ImageCache.get_state (c : ImageCache) (url : Url) : ImageState :=
  match alistFind url c.state_map with
  | some state => state
  | none => .Init

/-- Transcribes `ImageCache::set_state`. -/
def ImageCache.set_state (c : ImageCache) (url : Url) (state : ImageState) :
    ImageCache :=
  { c with state_map := alistInsert url state c.state_map }

/-- Transcribes `ImageCache::purge_waiters` (with the truncated match
head restored): drain the waiter list for the URL, send the response
to every waiter in order, and remove the entry; do nothing when there
is no entry. -/
def ImageCache.purge_waiters (c : ImageCache) (url : Url)
    (f : ImageResponseMsg) : ImageCache × List Event :=
  match alistFind url c.wait_map with
  | some waiters =>
    ({ c with wait_map := alistRemove url c.wait_map },
     waiters.map (fun response => .Reply response f))
  | none => (c, [])

/-- Transcribes `ImageCache::prefetch`: from `Init`, spawn a
prefetcher and move to `Prefetching(DoNotDecode)`; in every other
state do nothing. -/
def ImageCache.prefetch (c : ImageCache) (url : Url) :
    ImageCache × List Event :=
  match c.get_state url with
  | .Init =>
    (c.set_state url (.Prefetching .DoNotDecode), [.SpawnPrefetch url])
  | _ => (c, [])

/-- Transcribes `ImageCache::decode`.  `none` models the two fatal
paths: `fail!("decoding image before prefetch")` from `Init`, and the
`assert !data_cell.is_empty()` on an already-taken `Prefetched`
cell.  From a full `Prefetched` cell the buffer is taken, a decoder
is spawned with it, and the state becomes `Decoding`. -/
def ImageCache.decode (c : ImageCache) (url : Url) :
    Option (ImageCache × List Event) :=
  match c.get_state url with
  | .Init => none
  | .Prefetching .DoNotDecode =>
    some (c.set_state url (.Prefetching .DoDecode), [])
  | .Prefetching .DoDecode => some (c, [])
  | .Prefetched cell =>
    match cell with
    | none => none
    | some data =>
      some (c.set_state url .Decoding, [.SpawnDecode url data])
  | .Decoding => some (c, [])
  | .Decoded _ => some (c, [])
  | .Failed => some (c, [])

/-- Transcribes `ImageCache::store_prefetched_image_data`: only legal
in `Prefetching`; on ok data store a freshly filled `Prefetched` cell
and, when a decode was queued, run `decode`; on an error move to
`Failed` and purge the waiters with `ImageFailed`.  Every other state
is fatal. -/
def ImageCache.store_prefetched_image_data (c : ImageCache) (url : Url)
    (data : Except Unit Buffer) : Option (ImageCache × List Event) :=
  match c.get_state url with
  | .Prefetching next_step =>
    match data with
    | .ok buf =>
      let c1 := c.set_state url (.Prefetched (some buf))
      match next_step with
      | .DoDecode => c1.decode url
      | .DoNotDecode => some (c1, [])
    | .error _ =>
      some ((c.set_state url .Failed).purge_waiters url .ImageFailed)
  | _ => none

/-- Transcribes `ImageCache::store_image`: only legal in `Decoding`;
store the decoded handle (or `Failed`) and purge the waiters with a
response cloned from the terminal state.  Every other state is
fatal. -/
def ImageCache.store_image (c : ImageCache) (url : Url)
    (image : Option Image) : Option (ImageCache × List Event) :=
  match c.get_state url with
  | .Decoding =>
    match image with
    | some img =>
      some ((c.set_state url (.Decoded img)).purge_waiters url
        (.ImageReady img))
    | none =>
      some ((c.set_state url .Failed).purge_waiters url .ImageFailed)
  | _ => none

/-- Transcribes `ImageCache::get_image`: a single reply chosen from
the current state; fatal from `Init` ("request for image before
prefetch") and from `Prefetching(DoNotDecode)` or `Prefetched`
("request for image before decode"). -/
def ImageCache.get_image (c : ImageCache) (url : Url)
    (response : ChanId) : Option (ImageCache × List Event) :=
  match c.get_state url with
  | .Init => none
  | .Prefetching .DoDecode => some (c, [.Reply response .ImageNotReady])
  | .Prefetching .DoNotDecode => none
  | .Prefetched _ => none
  | .Decoding => some (c, [.Reply response .ImageNotReady])
  | .Decoded img => some (c, [.Reply response (.ImageReady img)])
  | .Failed => some (c, [.Reply response .ImageFailed])

/-- Transcribes `ImageCache::wait_for_image`: same fatal states as
`get_image`; in `Prefetching(DoDecode)` or `Decoding` the reply
channel is appended to the URL's wait-map entry (a fresh singleton
entry is inserted when absent) with no immediate response; in the
terminal states the response is sent immediately. -/
def ImageCache.wait_for_image (c : ImageCache) (url : Url)
    (response : ChanId) : Option (ImageCache × List Event) :=
  match c.get_state url with
  | .Init => none
  | .Prefetching .DoNotDecode => none
  | .Prefetched _ => none
  | .Prefetching .DoDecode =>
    match alistFind url c.wait_map with
    | some waiters =>
      some ({ c with wait_map := alistInsert url (waiters ++ [response]) c.wait_map }, [])
    | none =>
      some ({ c with wait_map := alistInsert url [response] c.wait_map }, [])
  | .Decoding =>
    match alistFind url c.wait_map with
    | some waiters =>
      some ({ c with wait_map := alistInsert url (waiters ++ [response]) c.wait_map }, [])
    | none =>
      some ({ c with wait_map := alistInsert url [response] c.wait_map }, [])
  | .Decoded img => some (c, [.Reply response (.ImageReady img)])
  | .Failed => some (c, [.Reply response .ImageFailed])

/-- The dispatch step of `ImageCache::run`'s match on the received
message.  The `Exit` arm transcribes `assert self.need_exit.is_none()`
(fatal when an exit is already pending) and records the reply
channel. -/
def ImageCache.dispatch (c : ImageCache) (m : Msg) :
    Option (ImageCache × List Event) :=
  match m with
  | .Prefetch url => some (c.prefetch url)
  | .StorePrefetchedImageData url data =>
    c.store_prefetched_image_data url data
  | .Decode url => c.decode url
  | .StoreImage url image => c.store_image url image
  | .GetImage url response => c.get_image url response
  | .WaitForImage url response => c.wait_for_image url response
  | .OnMsg => some (c, [])
  | .Exit response =>
    match c.need_exit with
    | some _ => none
    | none => some ({ c with need_exit := some response }, [])

/-- Does this per-URL state block a pending exit?  Transcribes the
match inside the quiescence scan: `Prefetching(*)` and `Decoding`
block; `Init`, `Prefetched`, `Decoded`, `Failed` do not. -/
def stateBlocksExit : ImageState → Bool
  | .Prefetching _ => true
  | .Decoding => true
  | .Init => false
  | .Prefetched _ => false
  | .Decoded _ => false
  | .Failed => false

/-- Transcribes the quiescence scan of `ImageCache::run`: `can_exit`
holds when no value of the state map is `Prefetching` or
`Decoding`. -/
def ImageCache.canExit (c : ImageCache) : Bool :=
  c.state_map.all (fun p => !stateBlocksExit p.2)

/-- Result of one iteration of the run loop: continue with a new
cache state, break out of the loop (after replying on the exit
channel), or crash. -/
inductive StepResult
  | next (c : ImageCache) (evs : List Event)
  | exited (evs : List Event)
  | fatal
  deriving DecidableEq, Repr

/-- One iteration of `ImageCache::run`: dispatch the message, then,
if an exit is pending, scan for quiescence; reply on the exit channel
and break exactly when quiescent, otherwise keep the pending channel
(the source takes it with `replace` and puts it back, a net no-op)
and continue. -/
def ImageCache.step (c : ImageCache) (m : Msg) : StepResult :=
  match c.dispatch m with
  | none => .fatal
  | some (c1, evs) =>
    match c1.need_exit with
    | some response =>
      if c1.canExit then .exited (evs ++ [.ExitReply response])
      else .next c1 evs
    | none => .next c1 evs

/-- How a finite run of the loop ended: the message list was
exhausted with the loop still live (it would block on the next
receive), the loop broke after acknowledging an exit, or the actor
crashed. -/
inductive RunOutcome
  | outOfMsgs (c : ImageCache)
  | exited
  | fatal
  deriving DecidableEq, Repr

/-- Runs the loop of `ImageCache::run` over a finite prefix of the
inbox, collecting the emitted events in order.  After the loop breaks
(`exited`) or crashes (`fatal`), the remaining messages are not
processed. -/
def ImageCache.runMsgs (c : ImageCache) : List Msg → List Event × RunOutcome
  | [] => ([], .outOfMsgs c)
  | m :: ms =>
    match c.step m with
    | .fatal => ([], .fatal)
    | .exited evs => (evs, .exited)
    | .next c1 evs =>
      let r := c1.runMsgs ms
      (evs ++ r.1, r.2)

/-- Transcribes `impl ImageResponseMsg : cmp::Eq`.  The first match
arm makes comparing two `ImageReady` values a failure
(`fail!("unimplemented comparison")`), modelled as `none`; the
diagonal payload-free arms yield `true`, and the trailing wildcard
arms yield `false` for every remaining (mixed-variant) pair. -/
def ImageResponseMsg.eq : ImageResponseMsg → ImageResponseMsg → Option Bool
  | .ImageReady _, .ImageReady _ => none
  | .ImageNotReady, .ImageNotReady => some true
  | .ImageFailed, .ImageFailed => some true
  | .ImageReady _, _ => some false
  | .ImageNotReady, _ => some false
  | .ImageFailed, _ => some false

/-- Transcribes `ImageResponseMsg::ne`, which returns the negation of
`eq` and therefore also fails exactly where `eq` fails. -/
def ImageResponseMsg.ne (a b : ImageResponseMsg) : Option Bool :=
  (a.eq b).map (fun r => !r)

/-- Transcribes the forwarding loop of `SyncImageCacheTask`: the
wrapper rewrites `GetImage(url, response)` into
`WaitForImage(url, response)`, forwards `Exit` and then breaks, and
forwards every other message unchanged. -/
def syncForward : List Msg → List Msg
  | [] => []
  | .GetImage url response :: rest =>
    .WaitForImage url response :: syncForward rest
  | .Exit response :: _ => [.Exit response]
  | m :: rest => m :: syncForward rest

/-- Modelled from the spec: the synchronous wrapper "forwards all
messages, with one substitution: it rewrites GetImage(u, reply) into
WaitForImage(u, reply) before forwarding", and "Exit is forwarded,
awaited, then the wrapper terminates".  Stated as a per-message
rewrite for comparison with the transcribed `syncForward`. -/
def rewriteMsgSpec : Msg → Msg
  | .GetImage url response => .WaitForImage url response
  | m => m

/-- Modelled from the spec: the stream the child cache receives from
the wrapper is the per-message rewrite of the input stream, cut just
after the first `Exit`. -/
def syncForwardSpec : List Msg → List Msg
  | [] => []
  | m :: rest =>
    match m with
    | .Exit response => [.Exit response]
    | m => rewriteMsgSpec m :: syncForwardSpec rest

/-! Helper lemmas about the association-list maps. -/

theorem alistFind_insert_self {α : Type} (k : Nat) (v : α)
    (m : List (Nat × α)) : alistFind k (alistInsert k v m) = some v := by
  induction m with
  | nil => simp [alistInsert, alistFind]
  | cons p rest ih =>
    obtain ⟨k', v'⟩ := p
    by_cases h : k' = k
    · simp [alistInsert, h, alistFind]
    · simp [alistInsert, h, alistFind, ih]

theorem alistFind_insert_ne {α : Type} (k k' : Nat) (v : α)
    (m : List (Nat × α)) (h : k' ≠ k) :
    alistFind k' (alistInsert k v m) = alistFind k' m := by
  have hk : ¬(k = k') := fun hc => h hc.symm
  induction m with
  | nil => simp [alistInsert, alistFind, hk]
  | cons p rest ih =>
    obtain ⟨k0, v0⟩ := p
    by_cases h0 : k0 = k
    · subst h0
      simp [alistInsert, alistFind, hk]
    · simp [alistInsert, h0, alistFind, ih]

theorem alistFind_remove_self {α : Type} (k : Nat) (m : List (Nat × α)) :
    alistFind k (alistRemove k m) = none := by
  induction m with
  | nil => simp [alistRemove, alistFind]
  | cons p rest ih =>
    obtain ⟨k0, v0⟩ := p
    simp only [alistRemove, List.filter_cons] at ih ⊢
    by_cases h0 : k0 = k
    · simp [h0, ih]
    · simp [h0, alistFind, ih]

theorem alistFind_remove_ne {α : Type} (k k' : Nat) (m : List (Nat × α))
    (h : k' ≠ k) : alistFind k' (alistRemove k m) = alistFind k' m := by
  have hk : ¬(k = k') := fun hc => h hc.symm
  induction m with
  | nil => simp [alistRemove, alistFind]
  | cons p rest ih =>
    obtain ⟨k0, v0⟩ := p
    simp only [alistRemove, List.filter_cons] at ih ⊢
    by_cases h0 : k0 = k
    · subst h0
      simp [alistFind, hk, ih]
    · simp [h0, alistFind, ih]

/-! Helper lemmas about `get_state`, `set_state` and `purge_waiters`. -/

@[simp]
theorem get_state_set_self (c : ImageCache) (u : Url) (s : ImageState) :
    (c.set_state u s).get_state u = s := by
  simp [ImageCache.get_state, ImageCache.set_state, alistFind_insert_self]

theorem get_state_set_ne (c : ImageCache) (u w : Url) (s : ImageState)
    (h : w ≠ u) : (c.set_state u s).get_state w = c.get_state w := by
  simp [ImageCache.get_state, ImageCache.set_state,
    alistFind_insert_ne _ _ _ _ h]

@[simp]
theorem wait_map_set_state (c : ImageCache) (u : Url) (s : ImageState) :
    (c.set_state u s).wait_map = c.wait_map := rfl

@[simp]
theorem need_exit_set_state (c : ImageCache) (u : Url) (s : ImageState) :
    (c.set_state u s).need_exit = c.need_exit := rfl

@[simp]
theorem purge_waiters_state_map (c : ImageCache) (u : Url)
    (r : ImageResponseMsg) : (c.purge_waiters u r).1.state_map = c.state_map := by
  unfold ImageCache.purge_waiters
  cases alistFind u c.wait_map <;> simp

@[simp]
theorem purge_waiters_get_state (c : ImageCache) (u w : Url)
    (r : ImageResponseMsg) :
    (c.purge_waiters u r).1.get_state w = c.get_state w := by
  unfold ImageCache.purge_waiters
  cases alistFind u c.wait_map <;> simp [ImageCache.get_state]

@[simp]
theorem purge_waiters_need_exit (c : ImageCache) (u : Url)
    (r : ImageResponseMsg) : (c.purge_waiters u r).1.need_exit = c.need_exit := by
  unfold ImageCache.purge_waiters
  cases alistFind u c.wait_map <;> simp

@[simp]
theorem purge_waiters_wait_find_self (c : ImageCache) (u : Url)
    (r : ImageResponseMsg) :
    alistFind u (c.purge_waiters u r).1.wait_map = none := by
  unfold ImageCache.purge_waiters
  cases h : alistFind u c.wait_map with
  | none => simpa using h
  | some ws => simp [alistFind_remove_self]

theorem purge_waiters_wait_find_ne (c : ImageCache) (u w : Url)
    (r : ImageResponseMsg) (h : w ≠ u) :
    alistFind w (c.purge_waiters u r).1.wait_map = alistFind w c.wait_map := by
  unfold ImageCache.purge_waiters
  cases alistFind u c.wait_map with
  | none => simp
  | some ws => simp [alistFind_remove_ne _ _ _ h]

theorem purge_waiters_events (c : ImageCache) (u : Url)
    (r : ImageResponseMsg) :
    (c.purge_waiters u r).2 =
      (match alistFind u c.wait_map with
       | some ws => ws.map (fun response => Event.Reply response r)
       | none => []) := by
  unfold ImageCache.purge_waiters
  cases alistFind u c.wait_map <;> simp

/-! Rank of a per-URL state along the lifecycle.  Every transition the
handlers perform is non-decreasing in rank, which is what makes the
prefetcher and decoder spawns unrepeatable. -/

/-- Position of a state along the per-URL lifecycle. -/
def rank : ImageState → Nat
  | .Init => 0
  | .Prefetching _ => 1
  | .Prefetched _ => 2
  | .Decoding => 3
  | .Decoded _ => 4
  | .Failed => 5

/-- Is this event the spawn of a prefetcher for `u` (one `Load(u)` to
the resource service)? -/
def isSpawnPrefetch (u : Url) : Event → Bool
  | .SpawnPrefetch v => v == u
  | _ => false

/-- Is this event the spawn of a decoder for `u` (one decoder
invocation)? -/
def isSpawnDecode (u : Url) : Event → Bool
  | .SpawnDecode v _ => v == u
  | _ => false

/-- Bundle of facts about one state transformation with event list
`evs`, for a fixed URL `u`: the rank of `u`'s state never decreases;
at most one prefetcher (resp. decoder) spawn for `u` is emitted; a
spawn pushes the rank past the point where it happened; and once the
rank is past that point no further spawn is emitted. -/
def SpawnFacts (u : Url) (c c' : ImageCache) (evs : List Event) : Prop :=
  rank (c.get_state u) ≤ rank (c'.get_state u)
  ∧ List.countP (isSpawnPrefetch u) evs ≤ 1
  ∧ (0 < List.countP (isSpawnPrefetch u) evs → 1 ≤ rank (c'.get_state u))
  ∧ (1 ≤ rank (c.get_state u) → List.countP (isSpawnPrefetch u) evs = 0)
  ∧ List.countP (isSpawnDecode u) evs ≤ 1
  ∧ (0 < List.countP (isSpawnDecode u) evs → 3 ≤ rank (c'.get_state u))
  ∧ (3 ≤ rank (c.get_state u) → List.countP (isSpawnDecode u) evs = 0)

theorem spawnFacts_trans {u : Url} {c c1 c2 : ImageCache}
    {evs1 evs2 : List Event} (h1 : SpawnFacts u c c1 evs1)
    (h2 : SpawnFacts u c1 c2 evs2) : SpawnFacts u c c2 (evs1 ++ evs2) := by
  obtain ⟨m1, p1le, p1post, p1pre, d1le, d1post, d1pre⟩ := h1
  obtain ⟨m2, p2le, p2post, p2pre, d2le, d2post, d2pre⟩ := h2
  refine ⟨le_trans m1 m2, ?_, ?_, ?_, ?_, ?_, ?_⟩ <;>
    simp only [List.countP_append]
  · by_cases hp : 0 < List.countP (isSpawnPrefetch u) evs1
    · have hr := p1post hp
      have h0 := p2pre hr
      omega
    · omega
  · intro hpos
    by_cases hp : 0 < List.countP (isSpawnPrefetch u) evs2
    · exact p2post hp
    · have h1p : 0 < List.countP (isSpawnPrefetch u) evs1 := by omega
      exact le_trans (p1post h1p) m2
  · intro hk
    have e1 := p1pre hk
    have e2 := p2pre (le_trans hk m1)
    omega
  · by_cases hd : 0 < List.countP (isSpawnDecode u) evs1
    · have hr := d1post hd
      have h0 := d2pre hr
      omega
    · omega
  · intro hpos
    by_cases hd : 0 < List.countP (isSpawnDecode u) evs2
    · exact d2post hd
    · have h1d : 0 < List.countP (isSpawnDecode u) evs1 := by omega
      exact le_trans (d1post h1d) m2
  · intro hk
    have e1 := d1pre hk
    have e2 := d2pre (le_trans hk m1)
    omega

theorem spawnFacts_plain {u : Url} {c c' : ImageCache} (evs : List Event)
    (hrank : rank (c.get_state u) ≤ rank (c'.get_state u))
    (hp : List.countP (isSpawnPrefetch u) evs = 0)
    (hd : List.countP (isSpawnDecode u) evs = 0) :
    SpawnFacts u c c' evs := by
  refine ⟨hrank, ?_, ?_, ?_, ?_, ?_, ?_⟩ <;> simp [hp, hd]

theorem countP_spawnPrefetch_replies (u : Url) (f : ImageResponseMsg)
    (ws : List ChanId) :
    List.countP (isSpawnPrefetch u)
      (ws.map (fun response => Event.Reply response f)) = 0 := by
  induction ws with
  | nil => rfl
  | cons w ws ih => simp [List.countP_cons, isSpawnPrefetch, ih]

theorem countP_spawnDecode_replies (u : Url) (f : ImageResponseMsg)
    (ws : List ChanId) :
    List.countP (isSpawnDecode u)
      (ws.map (fun response => Event.Reply response f)) = 0 := by
  induction ws with
  | nil => rfl
  | cons w ws ih => simp [List.countP_cons, isSpawnDecode, ih]

theorem get_state_set (c : ImageCache) (u v : Url) (s : ImageState) :
    (c.set_state v s).get_state u = if u = v then s else c.get_state u := by
  by_cases h : u = v
  · subst h
    simp
  · simp [h, get_state_set_ne _ _ _ _ h]

theorem prefetch_spawnFacts (u v : Url) (c : ImageCache) :
    SpawnFacts u c (c.prefetch v).1 (c.prefetch v).2 := by
  unfold ImageCache.prefetch
  cases hv : c.get_state v with
  | Init =>
    by_cases huv : u = v
    · subst huv
      refine ⟨?_, ?_, ?_, ?_, ?_, ?_, ?_⟩ <;>
        simp [hv, rank, isSpawnPrefetch, isSpawnDecode, List.countP_cons]
    · refine spawnFacts_plain _ ?_ ?_ ?_
      · rw [get_state_set_ne _ _ _ _ huv]
      · simp [List.countP_cons, isSpawnPrefetch, Ne.symm huv]
      · simp [List.countP_cons, isSpawnDecode]
  | Prefetching next => exact spawnFacts_plain _ le_rfl (by simp) (by simp)
  | Prefetched cell => exact spawnFacts_plain _ le_rfl (by simp) (by simp)
  | Decoding => exact spawnFacts_plain _ le_rfl (by simp) (by simp)
  | Decoded img => exact spawnFacts_plain _ le_rfl (by simp) (by simp)
  | Failed => exact spawnFacts_plain _ le_rfl (by simp) (by simp)

theorem decode_spawnFacts (u v : Url) (c : ImageCache)
    (r : ImageCache × List Event) (h : c.decode v = some r) :
    SpawnFacts u c r.1 r.2 := by
  unfold ImageCache.decode at h
  cases hv : c.get_state v with
  | Init =>
    rw [hv] at h
    exact Option.noConfusion h
  | Prefetching next =>
    rw [hv] at h
    cases next with
    | DoNotDecode =>
      obtain rfl := (Option.some_inj.mp h).symm
      by_cases huv : u = v
      · subst huv
        refine spawnFacts_plain _ ?_ (by simp) (by simp)
        simp [hv, rank]
      · refine spawnFacts_plain _ ?_ (by simp) (by simp)
        rw [get_state_set_ne _ _ _ _ huv]
    | DoDecode =>
      obtain rfl := (Option.some_inj.mp h).symm
      exact spawnFacts_plain _ le_rfl (by simp) (by simp)
  | Prefetched cell =>
    rw [hv] at h
    cases cell with
    | none => exact Option.noConfusion h
    | some data =>
      obtain rfl := (Option.some_inj.mp h).symm
      by_cases huv : u = v
      · subst huv
        refine ⟨?_, ?_, ?_, ?_, ?_, ?_, ?_⟩ <;>
          simp [hv, rank, isSpawnPrefetch, isSpawnDecode, List.countP_cons]
      · refine spawnFacts_plain _ ?_ ?_ ?_
        · rw [get_state_set_ne _ _ _ _ huv]
        · simp [List.countP_cons, isSpawnPrefetch]
        · simp [List.countP_cons, isSpawnDecode, Ne.symm huv]
  | Decoding =>
    rw [hv] at h
    obtain rfl := (Option.some_inj.mp h).symm
    exact spawnFacts_plain _ le_rfl (by simp) (by simp)
  | Decoded img =>
    rw [hv] at h
    obtain rfl := (Option.some_inj.mp h).symm
    exact spawnFacts_plain _ le_rfl (by simp) (by simp)
  | Failed =>
    rw [hv] at h
    obtain rfl := (Option.some_inj.mp h).symm
    exact spawnFacts_plain _ le_rfl (by simp) (by simp)

theorem countP_purge_spawnPrefetch (u v : Url) (c : ImageCache)
    (f : ImageResponseMsg) :
    List.countP (isSpawnPrefetch u) (c.purge_waiters v f).2 = 0 := by
  rw [purge_waiters_events]
  cases alistFind v c.wait_map with
  | none => rfl
  | some ws => simp [isSpawnPrefetch]

theorem countP_purge_spawnDecode (u v : Url) (c : ImageCache)
    (f : ImageResponseMsg) :
    List.countP (isSpawnDecode u) (c.purge_waiters v f).2 = 0 := by
  rw [purge_waiters_events]
  cases alistFind v c.wait_map with
  | none => rfl
  | some ws => simp [isSpawnDecode]

theorem spawnFacts_purge (u v : Url) (c c0 : ImageCache)
    (f : ImageResponseMsg)
    (hrank : rank (c.get_state u) ≤ rank (c0.get_state u)) :
    SpawnFacts u c (c0.purge_waiters v f).1 (c0.purge_waiters v f).2 := by
  refine spawnFacts_plain _ ?_ (countP_purge_spawnPrefetch u v c0 f)
    (countP_purge_spawnDecode u v c0 f)
  rw [purge_waiters_get_state]
  exact hrank

theorem store_prefetched_spawnFacts (u v : Url) (data : Except Unit Buffer)
    (c : ImageCache) (r : ImageCache × List Event)
    (h : c.store_prefetched_image_data v data = some r) :
    SpawnFacts u c r.1 r.2 := by
  unfold ImageCache.store_prefetched_image_data at h
  cases hv : c.get_state v with
  | Init => rw [hv] at h; exact Option.noConfusion h
  | Prefetched cell => rw [hv] at h; exact Option.noConfusion h
  | Decoding => rw [hv] at h; exact Option.noConfusion h
  | Decoded img => rw [hv] at h; exact Option.noConfusion h
  | Failed => rw [hv] at h; exact Option.noConfusion h
  | Prefetching next =>
    rw [hv] at h
    cases data with
    | ok buf =>
      cases next with
      | DoNotDecode =>
        obtain rfl := (Option.some_inj.mp h).symm
        by_cases huv : u = v
        · subst huv
          refine spawnFacts_plain _ ?_ (by simp) (by simp)
          simp [hv, rank]
        · refine spawnFacts_plain _ ?_ (by simp) (by simp)
          rw [get_state_set_ne _ _ _ _ huv]
      | DoDecode =>
        have h1 : SpawnFacts u c (c.set_state v (.Prefetched (some buf))) [] := by
          by_cases huv : u = v
          · subst huv
            refine spawnFacts_plain _ ?_ (by simp) (by simp)
            simp [hv, rank]
          · refine spawnFacts_plain _ ?_ (by simp) (by simp)
            rw [get_state_set_ne _ _ _ _ huv]
        have h2 := decode_spawnFacts u v _ r h
        simpa using spawnFacts_trans h1 h2
    | error e =>
      obtain rfl := (Option.some_inj.mp h).symm
      refine spawnFacts_purge u v c _ _ ?_
      by_cases huv : u = v
      · subst huv
        simp [hv, rank]
      · rw [get_state_set_ne _ _ _ _ huv]

theorem store_image_spawnFacts (u v : Url) (image : Option Image)
    (c : ImageCache) (r : ImageCache × List Event)
    (h : c.store_image v image = some r) : SpawnFacts u c r.1 r.2 := by
  unfold ImageCache.store_image at h
  cases hv : c.get_state v with
  | Init => rw [hv] at h; exact Option.noConfusion h
  | Prefetching next => rw [hv] at h; exact Option.noConfusion h
  | Prefetched cell => rw [hv] at h; exact Option.noConfusion h
  | Decoded img => rw [hv] at h; exact Option.noConfusion h
  | Failed => rw [hv] at h; exact Option.noConfusion h
  | Decoding =>
    rw [hv] at h
    cases image with
    | some img =>
      obtain rfl := (Option.some_inj.mp h).symm
      refine spawnFacts_purge u v c _ _ ?_
      by_cases huv : u = v
      · subst huv
        simp [hv, rank]
      · rw [get_state_set_ne _ _ _ _ huv]
    | none =>
      obtain rfl := (Option.some_inj.mp h).symm
      refine spawnFacts_purge u v c _ _ ?_
      by_cases huv : u = v
      · subst huv
        simp [hv, rank]
      · rw [get_state_set_ne _ _ _ _ huv]

theorem get_image_spawnFacts (u v : Url) (ch : ChanId) (c : ImageCache)
    (r : ImageCache × List Event) (h : c.get_image v ch = some r) :
    SpawnFacts u c r.1 r.2 := by
  unfold ImageCache.get_image at h
  cases hv : c.get_state v with
  | Init => rw [hv] at h; exact Option.noConfusion h
  | Prefetching next =>
    rw [hv] at h
    cases next with
    | DoNotDecode => exact Option.noConfusion h
    | DoDecode =>
      obtain rfl := (Option.some_inj.mp h).symm
      exact spawnFacts_plain _ le_rfl (by simp [List.countP_cons, isSpawnPrefetch])
        (by simp [List.countP_cons, isSpawnDecode])
  | Prefetched cell => rw [hv] at h; exact Option.noConfusion h
  | Decoding =>
    rw [hv] at h
    obtain rfl := (Option.some_inj.mp h).symm
    exact spawnFacts_plain _ le_rfl (by simp [List.countP_cons, isSpawnPrefetch])
      (by simp [List.countP_cons, isSpawnDecode])
  | Decoded img =>
    rw [hv] at h
    obtain rfl := (Option.some_inj.mp h).symm
    exact spawnFacts_plain _ le_rfl (by simp [List.countP_cons, isSpawnPrefetch])
      (by simp [List.countP_cons, isSpawnDecode])
  | Failed =>
    rw [hv] at h
    obtain rfl := (Option.some_inj.mp h).symm
    exact spawnFacts_plain _ le_rfl (by simp [List.countP_cons, isSpawnPrefetch])
      (by simp [List.countP_cons, isSpawnDecode])

theorem wait_for_image_spawnFacts (u v : Url) (ch : ChanId) (c : ImageCache)
    (r : ImageCache × List Event) (h : c.wait_for_image v ch = some r) :
    SpawnFacts u c r.1 r.2 := by
  unfold ImageCache.wait_for_image at h
  cases hv : c.get_state v with
  | Init => rw [hv] at h; exact Option.noConfusion h
  | Prefetching next =>
    rw [hv] at h
    cases next with
    | DoNotDecode => exact Option.noConfusion h
    | DoDecode =>
      cases hw : alistFind v c.wait_map with
      | some waiters =>
        rw [hw] at h
        obtain rfl := (Option.some_inj.mp h).symm
        exact spawnFacts_plain _ le_rfl (by simp) (by simp)
      | none =>
        rw [hw] at h
        obtain rfl := (Option.some_inj.mp h).symm
        exact spawnFacts_plain _ le_rfl (by simp) (by simp)
  | Prefetched cell => rw [hv] at h; exact Option.noConfusion h
  | Decoding =>
    rw [hv] at h
    cases hw : alistFind v c.wait_map with
    | some waiters =>
      rw [hw] at h
      obtain rfl := (Option.some_inj.mp h).symm
      exact spawnFacts_plain _ le_rfl (by simp) (by simp)
    | none =>
      rw [hw] at h
      obtain rfl := (Option.some_inj.mp h).symm
      exact spawnFacts_plain _ le_rfl (by simp) (by simp)
  | Decoded img =>
    rw [hv] at h
    obtain rfl := (Option.some_inj.mp h).symm
    exact spawnFacts_plain _ le_rfl (by simp [List.countP_cons, isSpawnPrefetch])
      (by simp [List.countP_cons, isSpawnDecode])
  | Failed =>
    rw [hv] at h
    obtain rfl := (Option.some_inj.mp h).symm
    exact spawnFacts_plain _ le_rfl (by simp [List.countP_cons, isSpawnPrefetch])
      (by simp [List.countP_cons, isSpawnDecode])

theorem dispatch_spawnFacts (u : Url) (c : ImageCache) (m : Msg)
    (r : ImageCache × List Event) (h : c.dispatch m = some r) :
    SpawnFacts u c r.1 r.2 := by
  cases m with
  | Prefetch v =>
    obtain rfl := (Option.some_inj.mp h).symm
    exact prefetch_spawnFacts u v c
  | StorePrefetchedImageData v data =>
    exact store_prefetched_spawnFacts u v data c r h
  | Decode v => exact decode_spawnFacts u v c r h
  | StoreImage v image => exact store_image_spawnFacts u v image c r h
  | GetImage v ch => exact get_image_spawnFacts u v ch c r h
  | WaitForImage v ch => exact wait_for_image_spawnFacts u v ch c r h
  | OnMsg =>
    obtain rfl := (Option.some_inj.mp h).symm
    exact spawnFacts_plain _ le_rfl (by simp) (by simp)
  | Exit response =>
    unfold ImageCache.dispatch at h
    cases hne : c.need_exit with
    | some ch => rw [hne] at h; exact Option.noConfusion h
    | none =>
      rw [hne] at h
      obtain rfl := (Option.some_inj.mp h).symm
      exact spawnFacts_plain _ le_rfl (by simp) (by simp)

/-- Counting facts for a whole run from cache `c`: at most one
prefetcher and at most one decoder spawn for `u` appear in the trace,
and none at all once `u`'s state is past the spawning point. -/
def TraceFacts (u : Url) (c : ImageCache) (evs : List Event) : Prop :=
  List.countP (isSpawnPrefetch u) evs ≤ 1
  ∧ (1 ≤ rank (c.get_state u) → List.countP (isSpawnPrefetch u) evs = 0)
  ∧ List.countP (isSpawnDecode u) evs ≤ 1
  ∧ (3 ≤ rank (c.get_state u) → List.countP (isSpawnDecode u) evs = 0)

theorem traceFacts_nil (u : Url) (c : ImageCache) : TraceFacts u c [] := by
  simp [TraceFacts]

theorem traceFacts_cons {u : Url} {c c1 : ImageCache}
    {evs rest : List Event} (h1 : SpawnFacts u c c1 evs)
    (h2 : TraceFacts u c1 rest) : TraceFacts u c (evs ++ rest) := by
  obtain ⟨m1, p1le, p1post, p1pre, d1le, d1post, d1pre⟩ := h1
  obtain ⟨p2le, p2pre, d2le, d2pre⟩ := h2
  refine ⟨?_, ?_, ?_, ?_⟩ <;> simp only [List.countP_append]
  · by_cases hp : 0 < List.countP (isSpawnPrefetch u) evs
    · have h0 := p2pre (p1post hp)
      omega
    · omega
  · intro hk
    have e1 := p1pre hk
    have e2 := p2pre (le_trans hk m1)
    omega
  · by_cases hd : 0 < List.countP (isSpawnDecode u) evs
    · have h0 := d2pre (d1post hd)
      omega
    · omega
  · intro hk
    have e1 := d1pre hk
    have e2 := d2pre (le_trans hk m1)
    omega

theorem step_next_inv {c c1 : ImageCache} {m : Msg} {evs : List Event}
    (h : c.step m = .next c1 evs) : c.dispatch m = some (c1, evs) := by
  unfold ImageCache.step at h
  split at h
  · exact StepResult.noConfusion h
  · rename_i c0 evs0 hd
    split at h
    · rename_i response hne
      split at h
      · exact StepResult.noConfusion h
      · obtain ⟨rfl, rfl⟩ := StepResult.next.inj h
        exact hd
    · obtain ⟨rfl, rfl⟩ := StepResult.next.inj h
      exact hd

theorem step_exited_inv {c : ImageCache} {m : Msg} {evs : List Event}
    (h : c.step m = .exited evs) :
    ∃ r response, c.dispatch m = some r ∧ r.1.need_exit = some response
      ∧ r.1.canExit = true ∧ evs = r.2 ++ [.ExitReply response] := by
  unfold ImageCache.step at h
  split at h
  · exact StepResult.noConfusion h
  · rename_i c0 evs0 hd
    split at h
    · rename_i response hne
      split at h
      · rename_i hce
        refine ⟨(c0, evs0), response, hd, hne, hce, ?_⟩
        exact (StepResult.exited.inj h).symm
      · exact StepResult.noConfusion h
    · exact StepResult.noConfusion h

theorem runMsgs_traceFacts (u : Url) :
    ∀ (ms : List Msg) (c : ImageCache), TraceFacts u c (c.runMsgs ms).1 := by
  intro ms
  induction ms with
  | nil => intro c; exact traceFacts_nil u c
  | cons m ms ih =>
    intro c
    show TraceFacts u c (c.runMsgs (m :: ms)).1
    unfold ImageCache.runMsgs
    cases hs : c.step m with
    | fatal => exact traceFacts_nil u c
    | exited evs =>
      obtain ⟨r, response, hd, hne, hce, hevs⟩ := step_exited_inv hs
      have hsf := dispatch_spawnFacts u c m r hd
      have htail : TraceFacts u r.1 [Event.ExitReply response] := by
        refine ⟨?_, ?_, ?_, ?_⟩ <;>
          simp [List.countP_cons, isSpawnPrefetch, isSpawnDecode]
      subst hevs
      exact traceFacts_cons hsf htail
    | next c1 evs =>
      have hd := step_next_inv hs
      have hsf := dispatch_spawnFacts u c m (c1, evs) hd
      exact traceFacts_cons hsf (ih c1)

/-- C1: on `GetImage(u, reply)` the cache sends exactly one reply
determined by `u`'s current state — `ImageNotReady` in
`Prefetching(DoDecode)` or `Decoding`, `ImageReady` carrying a clone
of the stored handle in `Decoded`, `ImageFailed` in `Failed` — leaving
the cache unchanged, and the actor terminates fatally in `Init`,
`Prefetching(DoNotDecode)` and `Prefetched`. -/
theorem C1_get_image_reply (c : ImageCache) (u : Url) (ch : ChanId) :
    c.get_image u ch =
      match c.get_state u with
      | .Init => none
      | .Prefetching .DoNotDecode => none
      | .Prefetched _ => none
      | .Prefetching .DoDecode => some (c, [.Reply ch .ImageNotReady])
      | .Decoding => some (c, [.Reply ch .ImageNotReady])
      | .Decoded img => some (c, [.Reply ch (.ImageReady img)])
      | .Failed => some (c, [.Reply ch .ImageFailed]) := by
  unfold ImageCache.get_image
  cases hv : c.get_state u with
  | Init => rfl
  | Prefetching next => cases next <;> rfl
  | Prefetched cell => rfl
  | Decoding => rfl
  | Decoded img => rfl
  | Failed => rfl

/-- C2: starting from the initial cache, any run of the actor emits at
most one prefetcher spawn (hence at most one `Load` reaches the
resource service) and at most one decoder spawn per URL; moreover
`Prefetch` spawns a prefetcher only from the implicit `Init` state and
is a no-op in every other state. -/
theorem C2_at_most_one_spawn (u : Url) (ms : List Msg) :
    List.countP (isSpawnPrefetch u) (emptyCache.runMsgs ms).1 ≤ 1
    ∧ List.countP (isSpawnDecode u) (emptyCache.runMsgs ms).1 ≤ 1
    ∧ (∀ c : ImageCache, c.get_state u ≠ .Init → c.prefetch u = (c, [])) := by
  obtain ⟨hp, hp0, hd, hd0⟩ := runMsgs_traceFacts u ms emptyCache
  refine ⟨hp, hd, ?_⟩
  intro c hne
  unfold ImageCache.prefetch
  cases hv : c.get_state u with
  | Init => exact absurd hv hne
  | Prefetching next => rfl
  | Prefetched cell => rfl
  | Decoding => rfl
  | Decoded img => rfl
  | Failed => rfl

theorem C2_at_most_one_spawn_witness :
    (⟨[(0, ImageState.Decoding)], [], none⟩ : ImageCache).prefetch 0
      = (⟨[(0, ImageState.Decoding)], [], none⟩, []) :=
  (C2_at_most_one_spawn 0 []).2.2 ⟨[(0, ImageState.Decoding)], [], none⟩
    (by decide)

/-- C9: equality on `ImageResponseMsg` is defined only for the
payload-free variants — `ImageNotReady` equals itself, `ImageFailed`
equals itself, any two distinct variants are unequal, comparing two
`ImageReady` values fails — and `ne` is the negation of `eq` wherever
`eq` is defined (and fails where it fails). -/
theorem C9_response_eq (a b : ImageResponseMsg) (i j : Image) :
    ImageResponseMsg.eq .ImageNotReady .ImageNotReady = some true
    ∧ ImageResponseMsg.eq .ImageFailed .ImageFailed = some true
    ∧ ImageResponseMsg.eq (.ImageReady i) (.ImageReady j) = none
    ∧ ImageResponseMsg.eq (.ImageReady i) .ImageNotReady = some false
    ∧ ImageResponseMsg.eq (.ImageReady i) .ImageFailed = some false
    ∧ ImageResponseMsg.eq .ImageNotReady (.ImageReady i) = some false
    ∧ ImageResponseMsg.eq .ImageNotReady .ImageFailed = some false
    ∧ ImageResponseMsg.eq .ImageFailed (.ImageReady i) = some false
    ∧ ImageResponseMsg.eq .ImageFailed .ImageNotReady = some false
    ∧ ImageResponseMsg.ne a b
        = (ImageResponseMsg.eq a b).map (fun r => !r) :=
  ⟨rfl, rfl, rfl, rfl, rfl, rfl, rfl, rfl, rfl, rfl⟩

/-! Per-handler characterizations of the state-map effect, used by the
terminality, frame and invariant claims. -/

theorem prefetch_char (c : ImageCache) (v w : Url) :
    (c.prefetch v).1.get_state w =
      if w = v ∧ c.get_state v = .Init then .Prefetching .DoNotDecode
      else c.get_state w := by
  unfold ImageCache.prefetch
  cases hv : c.get_state v with
  | Init =>
    rw [get_state_set]
    by_cases hw : w = v <;> simp [hw, hv]
  | Prefetching next => simp [hv]
  | Prefetched cell => simp [hv]
  | Decoding => simp [hv]
  | Decoded img => simp [hv]
  | Failed => simp [hv]

theorem prefetch_cache_of_not_init (c : ImageCache) (v : Url)
    (hv : c.get_state v ≠ .Init) : c.prefetch v = (c, []) := by
  unfold ImageCache.prefetch
  cases h : c.get_state v with
  | Init => exact absurd h hv
  | Prefetching next => rfl
  | Prefetched cell => rfl
  | Decoding => rfl
  | Decoded img => rfl
  | Failed => rfl

theorem decode_char (c : ImageCache) (v w : Url)
    (r : ImageCache × List Event) (h : c.decode v = some r) :
    r.1.get_state w =
      if w = v then
        match c.get_state v with
        | .Prefetching .DoNotDecode => .Prefetching .DoDecode
        | .Prefetched _ => .Decoding
        | s => s
      else c.get_state w := by
  unfold ImageCache.decode at h
  cases hv : c.get_state v with
  | Init => rw [hv] at h; exact Option.noConfusion h
  | Prefetching next =>
    rw [hv] at h
    cases next with
    | DoNotDecode =>
      obtain rfl := (Option.some_inj.mp h).symm
      rw [get_state_set]
    | DoDecode =>
      obtain rfl := (Option.some_inj.mp h).symm
      by_cases hw : w = v <;> simp [hw, hv]
  | Prefetched cell =>
    rw [hv] at h
    cases cell with
    | none => exact Option.noConfusion h
    | some data =>
      obtain rfl := (Option.some_inj.mp h).symm
      rw [get_state_set]
  | Decoding =>
    rw [hv] at h
    obtain rfl := (Option.some_inj.mp h).symm
    by_cases hw : w = v <;> simp [hw, hv]
  | Decoded img =>
    rw [hv] at h
    obtain rfl := (Option.some_inj.mp h).symm
    by_cases hw : w = v <;> simp [hw, hv]
  | Failed =>
    rw [hv] at h
    obtain rfl := (Option.some_inj.mp h).symm
    by_cases hw : w = v <;> simp [hw, hv]

theorem store_prefetched_char (c : ImageCache) (v w : Url)
    (data : Except Unit Buffer) (r : ImageCache × List Event)
    (h : c.store_prefetched_image_data v data = some r) :
    (∃ next, c.get_state v = .Prefetching next)
    ∧ r.1.get_state w =
        (if w = v then
          match data with
          | .ok buf =>
            match c.get_state v with
            | .Prefetching .DoNotDecode => .Prefetched (some buf)
            | _ => .Decoding
          | .error _ => .Failed
        else c.get_state w) := by
  unfold ImageCache.store_prefetched_image_data at h
  cases hv : c.get_state v with
  | Init => rw [hv] at h; exact Option.noConfusion h
  | Prefetched cell => rw [hv] at h; exact Option.noConfusion h
  | Decoding => rw [hv] at h; exact Option.noConfusion h
  | Decoded img => rw [hv] at h; exact Option.noConfusion h
  | Failed => rw [hv] at h; exact Option.noConfusion h
  | Prefetching next =>
    rw [hv] at h
    refine ⟨⟨next, rfl⟩, ?_⟩
    cases data with
    | ok buf =>
      cases next with
      | DoNotDecode =>
        obtain rfl := (Option.some_inj.mp h).symm
        rw [get_state_set]
      | DoDecode =>
        have hstate : (c.set_state v (.Prefetched (some buf))).get_state v
            = .Prefetched (some buf) := get_state_set_self _ _ _
        have hchar := decode_char _ v w r h
        rw [hchar, hstate]
        by_cases hw : w = v
        · simp [hw]
        · simp [hw, get_state_set_ne _ _ _ _ hw]
    | error e =>
      obtain rfl := (Option.some_inj.mp h).symm
      rw [purge_waiters_get_state, get_state_set]

theorem store_image_char (c : ImageCache) (v w : Url)
    (image : Option Image) (r : ImageCache × List Event)
    (h : c.store_image v image = some r) :
    c.get_state v = .Decoding
    ∧ r.1.get_state w =
        (if w = v then
          match image with
          | some img => .Decoded img
          | none => .Failed
        else c.get_state w) := by
  unfold ImageCache.store_image at h
  cases hv : c.get_state v with
  | Init => rw [hv] at h; exact Option.noConfusion h
  | Prefetching next => rw [hv] at h; exact Option.noConfusion h
  | Prefetched cell => rw [hv] at h; exact Option.noConfusion h
  | Decoded img => rw [hv] at h; exact Option.noConfusion h
  | Failed => rw [hv] at h; exact Option.noConfusion h
  | Decoding =>
    rw [hv] at h
    refine ⟨rfl, ?_⟩
    cases image with
    | some img =>
      obtain rfl := (Option.some_inj.mp h).symm
      rw [purge_waiters_get_state, get_state_set]
    | none =>
      obtain rfl := (Option.some_inj.mp h).symm
      rw [purge_waiters_get_state, get_state_set]

theorem get_image_cache_unchanged (c : ImageCache) (v : Url) (ch : ChanId)
    (r : ImageCache × List Event) (h : c.get_image v ch = some r) :
    r.1 = c := by
  unfold ImageCache.get_image at h
  cases hv : c.get_state v with
  | Init => rw [hv] at h; exact Option.noConfusion h
  | Prefetching next =>
    rw [hv] at h
    cases next with
    | DoNotDecode => exact Option.noConfusion h
    | DoDecode => exact (congrArg Prod.fst (Option.some_inj.mp h)).symm
  | Prefetched cell => rw [hv] at h; exact Option.noConfusion h
  | Decoding =>
    rw [hv] at h
    exact (congrArg Prod.fst (Option.some_inj.mp h)).symm
  | Decoded img =>
    rw [hv] at h
    exact (congrArg Prod.fst (Option.some_inj.mp h)).symm
  | Failed =>
    rw [hv] at h
    exact (congrArg Prod.fst (Option.some_inj.mp h)).symm

theorem wait_for_image_get_state (c : ImageCache) (v : Url) (ch : ChanId)
    (r : ImageCache × List Event) (w : Url)
    (h : c.wait_for_image v ch = some r) :
    r.1.get_state w = c.get_state w := by
  unfold ImageCache.wait_for_image at h
  cases hv : c.get_state v with
  | Init => rw [hv] at h; exact Option.noConfusion h
  | Prefetching next =>
    rw [hv] at h
    cases next with
    | DoNotDecode => exact Option.noConfusion h
    | DoDecode =>
      cases hw : alistFind v c.wait_map with
      | some waiters =>
        rw [hw] at h
        obtain rfl := (Option.some_inj.mp h).symm
        rfl
      | none =>
        rw [hw] at h
        obtain rfl := (Option.some_inj.mp h).symm
        rfl
  | Prefetched cell => rw [hv] at h; exact Option.noConfusion h
  | Decoding =>
    rw [hv] at h
    cases hw : alistFind v c.wait_map with
    | some waiters =>
      rw [hw] at h
      obtain rfl := (Option.some_inj.mp h).symm
      rfl
    | none =>
      rw [hw] at h
      obtain rfl := (Option.some_inj.mp h).symm
      rfl
  | Decoded img =>
    rw [hv] at h
    obtain rfl := (Option.some_inj.mp h).symm
    rfl
  | Failed =>
    rw [hv] at h
    obtain rfl := (Option.some_inj.mp h).symm
    rfl

/-- C4: `Decoded` and `Failed` are terminal.  No successful dispatch
of any message changes a URL's state once it is `Decoded i` or
`Failed` (`Prefetch` and `Decode` are no-ops there, worker reports
are fatal), and on a `Failed` URL every future `GetImage` or
`WaitForImage` replies `ImageFailed`. -/
theorem C4_terminal_states (c : ImageCache) (m : Msg) (u : Url) (i : Image) :
    (∀ r, c.dispatch m = some r →
        (c.get_state u = .Decoded i → r.1.get_state u = .Decoded i)
        ∧ (c.get_state u = .Failed → r.1.get_state u = .Failed))
    ∧ ((c.get_state u = .Decoded i ∨ c.get_state u = .Failed) →
        c.prefetch u = (c, []) ∧ c.decode u = some (c, [])
        ∧ (∀ data, c.store_prefetched_image_data u data = none)
        ∧ (∀ img, c.store_image u img = none))
    ∧ (c.get_state u = .Failed →
        ∀ ch, c.get_image u ch = some (c, [.Reply ch .ImageFailed])
          ∧ c.wait_for_image u ch = some (c, [.Reply ch .ImageFailed])) := by
  refine ⟨?_, ?_, ?_⟩
  · intro r hr
    cases m with
    | Prefetch v =>
      obtain rfl := (Option.some_inj.mp hr).symm
      rw [prefetch_char]
      constructor
      · intro h
        rw [if_neg]
        · exact h
        · rintro ⟨rfl, hc⟩
          rw [h] at hc
          exact ImageState.noConfusion hc
      · intro h
        rw [if_neg]
        · exact h
        · rintro ⟨rfl, hc⟩
          rw [h] at hc
          exact ImageState.noConfusion hc
    | StorePrefetchedImageData v data =>
      obtain ⟨⟨next, hv⟩, hw⟩ := store_prefetched_char c v u data r hr
      rw [hw]
      constructor
      · intro h
        rw [if_neg]
        · exact h
        · rintro rfl
          rw [h] at hv
          exact ImageState.noConfusion hv
      · intro h
        rw [if_neg]
        · exact h
        · rintro rfl
          rw [h] at hv
          exact ImageState.noConfusion hv
    | Decode v =>
      rw [decode_char c v u r hr]
      constructor
      · intro h
        by_cases huv : u = v
        · subst huv
          simp [h]
        · simp [huv, h]
      · intro h
        by_cases huv : u = v
        · subst huv
          simp [h]
        · simp [huv, h]
    | StoreImage v image =>
      obtain ⟨hv, hw⟩ := store_image_char c v u image r hr
      rw [hw]
      constructor
      · intro h
        rw [if_neg]
        · exact h
        · rintro rfl
          rw [h] at hv
          exact ImageState.noConfusion hv
      · intro h
        rw [if_neg]
        · exact h
        · rintro rfl
          rw [h] at hv
          exact ImageState.noConfusion hv
    | GetImage v ch =>
      rw [get_image_cache_unchanged c v ch r hr]
      exact ⟨fun h => h, fun h => h⟩
    | WaitForImage v ch =>
      rw [wait_for_image_get_state c v ch r u hr]
      exact ⟨fun h => h, fun h => h⟩
    | OnMsg =>
      obtain rfl := (Option.some_inj.mp hr).symm
      exact ⟨fun h => h, fun h => h⟩
    | Exit response =>
      unfold ImageCache.dispatch at hr
      cases hne : c.need_exit with
      | some ch => rw [hne] at hr; exact Option.noConfusion hr
      | none =>
        rw [hne] at hr
        obtain rfl := (Option.some_inj.mp hr).symm
        exact ⟨fun h => h, fun h => h⟩
  · intro hter
    have hni : c.get_state u ≠ .Init := by
      cases hter with
      | inl h => rw [h]; exact fun hc => ImageState.noConfusion hc
      | inr h => rw [h]; exact fun hc => ImageState.noConfusion hc
    refine ⟨prefetch_cache_of_not_init c u hni, ?_, ?_, ?_⟩
    · unfold ImageCache.decode
      cases hter with
      | inl h => rw [h]
      | inr h => rw [h]
    · intro data
      unfold ImageCache.store_prefetched_image_data
      cases hter with
      | inl h => rw [h]
      | inr h => rw [h]
    · intro img
      unfold ImageCache.store_image
      cases hter with
      | inl h => rw [h]
      | inr h => rw [h]
  · intro h ch
    constructor
    · unfold ImageCache.get_image
      rw [h]
    · unfold ImageCache.wait_for_image
      rw [h]

theorem C4_terminal_states_witness :
    (⟨[(2, ImageState.Failed)], [], none⟩ : ImageCache).get_image 2 9
      = some (⟨[(2, ImageState.Failed)], [], none⟩,
          [.Reply 9 .ImageFailed]) :=
  ((C4_terminal_states ⟨[(2, ImageState.Failed)], [], none⟩ .OnMsg 2 0).2.2
    (by decide) 9).1

/-- C10: `GetImage` never mutates the cache, the immediate-reply
branches of `WaitForImage` (`Decoded`, `Failed`) leave it unchanged,
and in `Prefetching(DoDecode)` or `Decoding` the only effect of
`WaitForImage` besides the (absent) reply is appending the channel to
the URL's wait-map entry: state map, pending exit and all other
wait-map entries are untouched and no event is emitted. -/
theorem C10_frame_effects (c : ImageCache) (u : Url) (ch : ChanId)
    (r : ImageCache × List Event) :
    (c.get_image u ch = some r → r.1 = c)
    ∧ (∀ i, c.get_state u = .Decoded i →
        c.wait_for_image u ch = some r → r.1 = c)
    ∧ (c.get_state u = .Failed →
        c.wait_for_image u ch = some r → r.1 = c)
    ∧ ((c.get_state u = .Prefetching .DoDecode ∨ c.get_state u = .Decoding) →
        c.wait_for_image u ch = some r →
        r.2 = [] ∧ r.1.state_map = c.state_map
        ∧ r.1.need_exit = c.need_exit
        ∧ alistFind u r.1.wait_map = some
            ((match alistFind u c.wait_map with
              | some ws => ws
              | none => []) ++ [ch])
        ∧ (∀ w, w ≠ u → alistFind w r.1.wait_map = alistFind w c.wait_map)) := by
  refine ⟨fun h => get_image_cache_unchanged c u ch r h, ?_, ?_, ?_⟩
  · intro i hdec h
    unfold ImageCache.wait_for_image at h
    rw [hdec] at h
    exact ((congrArg Prod.fst (Option.some_inj.mp h)).symm : r.1 = c)
  · intro hf h
    unfold ImageCache.wait_for_image at h
    rw [hf] at h
    exact ((congrArg Prod.fst (Option.some_inj.mp h)).symm : r.1 = c)
  · intro hst h
    unfold ImageCache.wait_for_image at h
    have hgo : ∀ waiters, alistFind u c.wait_map = some waiters →
        r = ({ c with wait_map := alistInsert u (waiters ++ [ch]) c.wait_map },
             []) →
        r.2 = [] ∧ r.1.state_map = c.state_map
        ∧ r.1.need_exit = c.need_exit
        ∧ alistFind u r.1.wait_map = some
            ((match alistFind u c.wait_map with
              | some ws => ws
              | none => []) ++ [ch])
        ∧ (∀ w, w ≠ u → alistFind w r.1.wait_map = alistFind w c.wait_map) := by
      rintro waiters hw rfl
      refine ⟨rfl, rfl, rfl, ?_, ?_⟩
      · rw [hw]
        exact alistFind_insert_self _ _ _
      · intro w hwu
        exact alistFind_insert_ne _ _ _ _ hwu
    have hgo0 : alistFind u c.wait_map = none →
        r = ({ c with wait_map := alistInsert u [ch] c.wait_map }, []) →
        r.2 = [] ∧ r.1.state_map = c.state_map
        ∧ r.1.need_exit = c.need_exit
        ∧ alistFind u r.1.wait_map = some
            ((match alistFind u c.wait_map with
              | some ws => ws
              | none => []) ++ [ch])
        ∧ (∀ w, w ≠ u → alistFind w r.1.wait_map = alistFind w c.wait_map) := by
      rintro hw rfl
      refine ⟨rfl, rfl, rfl, ?_, ?_⟩
      · rw [hw]
        exact alistFind_insert_self _ _ _
      · intro w hwu
        exact alistFind_insert_ne _ _ _ _ hwu
    cases hst with
    | inl hst =>
      rw [hst] at h
      cases hw : alistFind u c.wait_map with
      | some waiters =>
        rw [hw] at h
        have hres := hgo waiters hw (Option.some_inj.mp h).symm
        rw [hw] at hres
        exact hres
      | none =>
        rw [hw] at h
        have hres := hgo0 hw (Option.some_inj.mp h).symm
        rw [hw] at hres
        exact hres
    | inr hst =>
      rw [hst] at h
      cases hw : alistFind u c.wait_map with
      | some waiters =>
        rw [hw] at h
        have hres := hgo waiters hw (Option.some_inj.mp h).symm
        rw [hw] at hres
        exact hres
      | none =>
        rw [hw] at h
        have hres := hgo0 hw (Option.some_inj.mp h).symm
        rw [hw] at hres
        exact hres

theorem C10_frame_effects_witness :
    ((⟨[(1, ImageState.Decoding)], [], none⟩ : ImageCache),
        [Event.Reply 4 ImageResponseMsg.ImageNotReady]).1
      = (⟨[(1, ImageState.Decoding)], [], none⟩ : ImageCache) :=
  (C10_frame_effects ⟨[(1, ImageState.Decoding)], [], none⟩ 1 4
    (⟨[(1, ImageState.Decoding)], [], none⟩,
      [Event.Reply 4 ImageResponseMsg.ImageNotReady])).1 (by decide)

theorem purge_waiters_spec (c0 : ImageCache) (u : Url)
    (f : ImageResponseMsg) (ws : List ChanId)
    (hw : alistFind u c0.wait_map = some ws) :
    c0.purge_waiters u f =
      ({ c0 with wait_map := alistRemove u c0.wait_map },
       ws.map (fun w => Event.Reply w f)) := by
  unfold ImageCache.purge_waiters
  rw [hw]

/-- C5: at settlement of `u` (first transition into `Decoded` or
`Failed`, via `StoreImage` or a failed `StorePrefetchedImageData`),
every channel enrolled for `u` in the wait map receives exactly one
response built from the terminal state — `ImageReady` with the (clone
of the) stored handle when `Decoded`, `ImageFailed` when `Failed` —
in enrollment order, and the wait-map entry for `u` is removed while
all other entries are untouched. -/
theorem C5_settlement (c : ImageCache) (u : Url) (ws : List ChanId)
    (hw : alistFind u c.wait_map = some ws) :
    (∀ img, c.get_state u = .Decoding →
        c.store_image u (some img)
          = some ({ c.set_state u (.Decoded img) with
                      wait_map := alistRemove u c.wait_map },
              ws.map (fun w => Event.Reply w (.ImageReady img)))
        ∧ alistFind u (alistRemove u c.wait_map) = none)
    ∧ (c.get_state u = .Decoding →
        c.store_image u none
          = some ({ c.set_state u .Failed with
                      wait_map := alistRemove u c.wait_map },
              ws.map (fun w => Event.Reply w .ImageFailed))
        ∧ alistFind u (alistRemove u c.wait_map) = none)
    ∧ (∀ next, c.get_state u = .Prefetching next →
        c.store_prefetched_image_data u (.error ())
          = some ({ c.set_state u .Failed with
                      wait_map := alistRemove u c.wait_map },
              ws.map (fun w => Event.Reply w .ImageFailed))
        ∧ alistFind u (alistRemove u c.wait_map) = none)
    ∧ (∀ w, w ≠ u →
        alistFind w (alistRemove u c.wait_map) = alistFind w c.wait_map) := by
  refine ⟨?_, ?_, ?_, ?_⟩
  · intro img hst
    constructor
    · unfold ImageCache.store_image
      rw [hst]
      exact congrArg some
        (purge_waiters_spec (c.set_state u (.Decoded img)) u
          (.ImageReady img) ws hw)
    · exact alistFind_remove_self u c.wait_map
  · intro hst
    constructor
    · unfold ImageCache.store_image
      rw [hst]
      exact congrArg some
        (purge_waiters_spec (c.set_state u .Failed) u .ImageFailed ws hw)
    · exact alistFind_remove_self u c.wait_map
  · intro next hst
    constructor
    · unfold ImageCache.store_prefetched_image_data
      rw [hst]
      exact congrArg some
        (purge_waiters_spec (c.set_state u .Failed) u .ImageFailed ws hw)
    · exact alistFind_remove_self u c.wait_map
  · intro w hwu
    exact alistFind_remove_ne u w c.wait_map hwu

theorem C5_settlement_witness :
    ImageCache.store_image ⟨[(3, ImageState.Decoding)], [(3, [7, 8])], none⟩
        3 (some 5)
      = some (⟨[(3, ImageState.Decoded 5)], [], none⟩,
          [Event.Reply 7 (.ImageReady 5), Event.Reply 8 (.ImageReady 5)]) :=
  ((C5_settlement ⟨[(3, ImageState.Decoding)], [(3, [7, 8])], none⟩ 3
    [7, 8] (by decide)).1 5 (by decide)).1

/-! Wait-map effect of each handler, for the wait-map invariant. -/

theorem prefetch_wait_map (c : ImageCache) (v : Url) :
    (c.prefetch v).1.wait_map = c.wait_map := by
  unfold ImageCache.prefetch
  cases hv : c.get_state v with
  | Init => rfl
  | Prefetching next => rfl
  | Prefetched cell => rfl
  | Decoding => rfl
  | Decoded img => rfl
  | Failed => rfl

theorem decode_wait_map (c : ImageCache) (v : Url)
    (r : ImageCache × List Event) (h : c.decode v = some r) :
    r.1.wait_map = c.wait_map := by
  unfold ImageCache.decode at h
  cases hv : c.get_state v with
  | Init => rw [hv] at h; exact Option.noConfusion h
  | Prefetching next =>
    rw [hv] at h
    cases next with
    | DoNotDecode =>
      obtain rfl := (Option.some_inj.mp h).symm
      rfl
    | DoDecode =>
      obtain rfl := (Option.some_inj.mp h).symm
      rfl
  | Prefetched cell =>
    rw [hv] at h
    cases cell with
    | none => exact Option.noConfusion h
    | some data =>
      obtain rfl := (Option.some_inj.mp h).symm
      rfl
  | Decoding =>
    rw [hv] at h
    obtain rfl := (Option.some_inj.mp h).symm
    rfl
  | Decoded img =>
    rw [hv] at h
    obtain rfl := (Option.some_inj.mp h).symm
    rfl
  | Failed =>
    rw [hv] at h
    obtain rfl := (Option.some_inj.mp h).symm
    rfl

theorem store_prefetched_wait_find (c : ImageCache) (v w : Url)
    (data : Except Unit Buffer) (r : ImageCache × List Event)
    (h : c.store_prefetched_image_data v data = some r) :
    alistFind w r.1.wait_map =
      match data with
      | .ok _ => alistFind w c.wait_map
      | .error _ => if w = v then none else alistFind w c.wait_map := by
  unfold ImageCache.store_prefetched_image_data at h
  cases hv : c.get_state v with
  | Init => rw [hv] at h; exact Option.noConfusion h
  | Prefetched cell => rw [hv] at h; exact Option.noConfusion h
  | Decoding => rw [hv] at h; exact Option.noConfusion h
  | Decoded img => rw [hv] at h; exact Option.noConfusion h
  | Failed => rw [hv] at h; exact Option.noConfusion h
  | Prefetching next =>
    rw [hv] at h
    cases data with
    | ok buf =>
      cases next with
      | DoNotDecode =>
        obtain rfl := (Option.some_inj.mp h).symm
        rfl
      | DoDecode =>
        rw [decode_wait_map _ v r h]
        rfl
    | error e =>
      obtain rfl := (Option.some_inj.mp h).symm
      by_cases hw : w = v
      · subst hw
        simp
      · simp only [if_neg hw]
        exact purge_waiters_wait_find_ne _ _ _ _ hw

theorem store_image_wait_find (c : ImageCache) (v w : Url)
    (image : Option Image) (r : ImageCache × List Event)
    (h : c.store_image v image = some r) :
    alistFind w r.1.wait_map =
      if w = v then none else alistFind w c.wait_map := by
  unfold ImageCache.store_image at h
  cases hv : c.get_state v with
  | Init => rw [hv] at h; exact Option.noConfusion h
  | Prefetching next => rw [hv] at h; exact Option.noConfusion h
  | Prefetched cell => rw [hv] at h; exact Option.noConfusion h
  | Decoded img => rw [hv] at h; exact Option.noConfusion h
  | Failed => rw [hv] at h; exact Option.noConfusion h
  | Decoding =>
    rw [hv] at h
    cases image with
    | some img =>
      obtain rfl := (Option.some_inj.mp h).symm
      by_cases hw : w = v
      · subst hw
        simp
      · simp only [if_neg hw]
        exact purge_waiters_wait_find_ne _ _ _ _ hw
    | none =>
      obtain rfl := (Option.some_inj.mp h).symm
      by_cases hw : w = v
      · subst hw
        simp
      · simp only [if_neg hw]
        exact purge_waiters_wait_find_ne _ _ _ _ hw

theorem wait_for_image_wait_disj (c : ImageCache) (v : Url) (ch : ChanId)
    (r : ImageCache × List Event) (h : c.wait_for_image v ch = some r) :
    r.1.wait_map = c.wait_map
    ∨ ((c.get_state v = .Prefetching .DoDecode ∨ c.get_state v = .Decoding)
       ∧ ∀ w, w ≠ v → alistFind w r.1.wait_map = alistFind w c.wait_map) := by
  unfold ImageCache.wait_for_image at h
  cases hv : c.get_state v with
  | Init => rw [hv] at h; exact Option.noConfusion h
  | Prefetched cell => rw [hv] at h; exact Option.noConfusion h
  | Prefetching next =>
    rw [hv] at h
    cases next with
    | DoNotDecode => exact Option.noConfusion h
    | DoDecode =>
      refine Or.inr ⟨Or.inl rfl, ?_⟩
      intro w hwv
      cases hw : alistFind v c.wait_map with
      | some waiters =>
        rw [hw] at h
        obtain rfl := (Option.some_inj.mp h).symm
        exact alistFind_insert_ne _ _ _ _ hwv
      | none =>
        rw [hw] at h
        obtain rfl := (Option.some_inj.mp h).symm
        exact alistFind_insert_ne _ _ _ _ hwv
  | Decoding =>
    rw [hv] at h
    refine Or.inr ⟨Or.inr rfl, ?_⟩
    intro w hwv
    cases hw : alistFind v c.wait_map with
    | some waiters =>
      rw [hw] at h
      obtain rfl := (Option.some_inj.mp h).symm
      exact alistFind_insert_ne _ _ _ _ hwv
    | none =>
      rw [hw] at h
      obtain rfl := (Option.some_inj.mp h).symm
      exact alistFind_insert_ne _ _ _ _ hwv
  | Decoded img =>
    rw [hv] at h
    obtain rfl := (Option.some_inj.mp h).symm
    exact Or.inl rfl
  | Failed =>
    rw [hv] at h
    obtain rfl := (Option.some_inj.mp h).symm
    exact Or.inl rfl

/-- Cache states reachable from the freshly constructed cache through
successful dispatches; a failed dispatch kills the actor, so nothing
is reachable past it. -/
inductive Reachable : ImageCache → Prop
  | init : Reachable emptyCache
  | step {c c' : ImageCache} {m : Msg} {evs : List Event} :
      Reachable c → c.dispatch m = some (c', evs) → Reachable c'

/-- Every `Prefetched` cell in the state map is still full (has never
been taken). -/
def PrefetchedFull (c : ImageCache) : Prop :=
  ∀ u cell, c.get_state u = .Prefetched cell → ∃ d, cell = some d

theorem dispatch_preserves_prefetchedFull {c c' : ImageCache} {m : Msg}
    {evs : List Event} (hd : c.dispatch m = some (c', evs))
    (inv : PrefetchedFull c) : PrefetchedFull c' := by
  intro u cell h'
  cases m with
  | Prefetch v =>
    obtain rfl := congrArg Prod.fst (Option.some_inj.mp hd)
    rw [prefetch_char] at h'
    split at h'
    · exact ImageState.noConfusion h'
    · exact inv u cell h'
  | StorePrefetchedImageData v data =>
    obtain ⟨⟨next, hv⟩, hgs⟩ := store_prefetched_char c v u data (c', evs) hd
    have hgs' : c'.get_state u = _ := hgs
    have hx := hgs'.symm.trans h'
    split at hx
    · split at hx
      · split at hx
        · exact ⟨_, (ImageState.Prefetched.inj hx).symm⟩
        · exact ImageState.noConfusion hx
      · exact ImageState.noConfusion hx
    · exact inv u cell hx
  | Decode v =>
    have hgs : c'.get_state u = _ := decode_char c v u (c', evs) hd
    have hx := hgs.symm.trans h'
    split at hx
    · rename_i huv
      subst huv
      split at hx
      · exact ImageState.noConfusion hx
      · exact ImageState.noConfusion hx
      · exact inv u cell hx
    · exact inv u cell hx
  | StoreImage v image =>
    obtain ⟨hv, hgs⟩ := store_image_char c v u image (c', evs) hd
    have hgs' : c'.get_state u = _ := hgs
    have hx := hgs'.symm.trans h'
    split at hx
    · split at hx
      · exact ImageState.noConfusion hx
      · exact ImageState.noConfusion hx
    · exact inv u cell hx
  | GetImage v ch =>
    have hc : c' = c := get_image_cache_unchanged c v ch (c', evs) hd
    subst hc
    exact inv u cell h'
  | WaitForImage v ch =>
    have hg : c'.get_state u = c.get_state u :=
      wait_for_image_get_state c v ch (c', evs) u hd
    rw [hg] at h'
    exact inv u cell h'
  | OnMsg =>
    obtain rfl := congrArg Prod.fst (Option.some_inj.mp hd)
    exact inv u cell h'
  | Exit response =>
    unfold ImageCache.dispatch at hd
    cases hne : c.need_exit with
    | some ch => rw [hne] at hd; exact Option.noConfusion hd
    | none =>
      rw [hne] at hd
      obtain rfl := congrArg Prod.fst (Option.some_inj.mp hd)
      exact inv u cell h'

theorem reachable_prefetchedFull (c : ImageCache) (h : Reachable c) :
    PrefetchedFull c := by
  induction h with
  | init =>
    intro u cell hc
    simp [emptyCache, ImageCache.get_state, alistFind] at hc
  | step hr hd ih => exact dispatch_preserves_prefetchedFull hd ih

/-- C3: in every reachable cache state a `Prefetched` cell is full,
so the non-empty assertion at the start of the decode-from-Prefetched
branch cannot fail there, and the (unique) transition out of
`Prefetched` takes the buffer exactly once, handing it to the spawned
decoder while the state moves to `Decoding`. -/
theorem C3_prefetched_cell_full (c : ImageCache) (h : Reachable c) :
    PrefetchedFull c
    ∧ (∀ u cell, c.get_state u = .Prefetched cell → c.decode u ≠ none)
    ∧ (∀ u d, c.get_state u = .Prefetched (some d) →
        c.decode u = some (c.set_state u .Decoding, [.SpawnDecode u d])) := by
  have hfull := reachable_prefetchedFull c h
  refine ⟨hfull, ?_, ?_⟩
  · intro u cell hc
    obtain ⟨d, rfl⟩ := hfull u cell hc
    intro hnone
    unfold ImageCache.decode at hnone
    rw [hc] at hnone
    exact Option.noConfusion hnone
  · intro u d hc
    unfold ImageCache.decode
    rw [hc]

theorem C3_prefetched_cell_full_witness :
    ImageCache.decode ⟨[(0, ImageState.Prefetched (some [5]))], [], none⟩ 0
      = some (ImageCache.set_state
          ⟨[(0, ImageState.Prefetched (some [5]))], [], none⟩ 0 .Decoding,
        [.SpawnDecode 0 [5]]) :=
  (C3_prefetched_cell_full ⟨[(0, ImageState.Prefetched (some [5]))], [], none⟩
    (@Reachable.step ⟨[(0, ImageState.Prefetching .DoNotDecode)], [], none⟩
      ⟨[(0, ImageState.Prefetched (some [5]))], [], none⟩
      (.StorePrefetchedImageData 0 (.ok [5])) []
      (@Reachable.step emptyCache
        ⟨[(0, ImageState.Prefetching .DoNotDecode)], [], none⟩
        (.Prefetch 0) [.SpawnPrefetch 0] Reachable.init (by decide))
      (by decide))).2.2 0 [5] (by decide)

/-- A URL has a wait-map entry only while its state is
`Prefetching(DoDecode)` or `Decoding`. -/
def WaitMapConsistent (c : ImageCache) : Prop :=
  ∀ u, alistFind u c.wait_map ≠ none →
    c.get_state u = .Prefetching .DoDecode ∨ c.get_state u = .Decoding

theorem dispatch_preserves_waitMapConsistent {c c' : ImageCache} {m : Msg}
    {evs : List Event} (hd : c.dispatch m = some (c', evs))
    (inv : WaitMapConsistent c) : WaitMapConsistent c' := by
  intro u hu
  cases m with
  | Prefetch v =>
    obtain rfl := congrArg Prod.fst (Option.some_inj.mp hd)
    rw [prefetch_wait_map] at hu
    have hold := inv u hu
    rw [prefetch_char, if_neg]
    · exact hold
    · rintro ⟨rfl, hcv⟩
      rw [hcv] at hold
      cases hold with
      | inl hc => exact ImageState.noConfusion hc
      | inr hc => exact ImageState.noConfusion hc
  | StorePrefetchedImageData v data =>
    obtain ⟨⟨next, hv⟩, hgs⟩ := store_prefetched_char c v u data (c', evs) hd
    cases data with
    | ok buf =>
      have hwf : alistFind u c'.wait_map = alistFind u c.wait_map :=
        store_prefetched_wait_find c v u (.ok buf) (c', evs) hd
      rw [hwf] at hu
      have hold := inv u hu
      have hgs2 : c'.get_state u =
          if u = v then
            match c.get_state v with
            | .Prefetching .DoNotDecode => .Prefetched (some buf)
            | _ => .Decoding
          else c.get_state u := hgs
      by_cases huv : u = v
      · subst huv
        cases hold with
        | inl hPD =>
          right
          rw [hgs2, if_pos rfl, hPD]
        | inr hDec =>
          rw [hv] at hDec
          exact ImageState.noConfusion hDec
      · rw [hgs2, if_neg huv]
        exact hold
    | error e =>
      have hwf : alistFind u c'.wait_map =
          if u = v then none else alistFind u c.wait_map :=
        store_prefetched_wait_find c v u (.error e) (c', evs) hd
      by_cases huv : u = v
      · subst huv
        rw [hwf, if_pos rfl] at hu
        exact absurd rfl hu
      · rw [hwf, if_neg huv] at hu
        have hold := inv u hu
        have hgs2 : c'.get_state u =
            if u = v then ImageState.Failed else c.get_state u := hgs
        rw [hgs2, if_neg huv]
        exact hold
  | Decode v =>
    have hwm : c'.wait_map = c.wait_map := decode_wait_map c v (c', evs) hd
    rw [hwm] at hu
    have hold := inv u hu
    have hgs : c'.get_state u = _ := decode_char c v u (c', evs) hd
    by_cases huv : u = v
    · subst huv
      cases hold with
      | inl hPD =>
        left
        rw [hgs, if_pos rfl, hPD]
      | inr hDec =>
        right
        rw [hgs, if_pos rfl, hDec]
    · rw [hgs, if_neg huv]
      exact hold
  | StoreImage v image =>
    obtain ⟨hv, hgs⟩ := store_image_char c v u image (c', evs) hd
    have hwf : alistFind u c'.wait_map =
        if u = v then none else alistFind u c.wait_map :=
      store_image_wait_find c v u image (c', evs) hd
    by_cases huv : u = v
    · subst huv
      rw [hwf, if_pos rfl] at hu
      exact absurd rfl hu
    · rw [hwf, if_neg huv] at hu
      have hold := inv u hu
      rw [hgs, if_neg huv]
      exact hold
  | GetImage v ch =>
    have hc : c' = c := get_image_cache_unchanged c v ch (c', evs) hd
    subst hc
    exact inv u hu
  | WaitForImage v ch =>
    have hg : c'.get_state u = c.get_state u :=
      wait_for_image_get_state c v ch (c', evs) u hd
    rw [hg]
    cases wait_for_image_wait_disj c v ch (c', evs) hd with
    | inl hsame =>
      rw [hsame] at hu
      exact inv u hu
    | inr hpair =>
      obtain ⟨hstv, hothers⟩ := hpair
      by_cases huv : u = v
      · subst huv
        exact hstv
      · rw [hothers u huv] at hu
        exact inv u hu
  | OnMsg =>
    obtain rfl := congrArg Prod.fst (Option.some_inj.mp hd)
    exact inv u hu
  | Exit response =>
    unfold ImageCache.dispatch at hd
    cases hne : c.need_exit with
    | some ch => rw [hne] at hd; exact Option.noConfusion hd
    | none =>
      rw [hne] at hd
      obtain rfl := congrArg Prod.fst (Option.some_inj.mp hd)
      exact inv u hu

theorem reachable_waitMapConsistent (c : ImageCache) (h : Reachable c) :
    WaitMapConsistent c := by
  induction h with
  | init =>
    intro u hu
    exact absurd rfl hu
  | step hr hd ih => exact dispatch_preserves_waitMapConsistent hd ih

/-- C6: in every reachable cache state a URL has a wait-map entry
only while its state is `Prefetching(DoDecode)` or `Decoding`:
`WaitForImage` enrolls only in those two states and every transition
into `Decoded` or `Failed` removes the entry. -/
theorem C6_wait_map_only_transient (c : ImageCache) (h : Reachable c)
    (u : Url) (hu : alistFind u c.wait_map ≠ none) :
    c.get_state u = .Prefetching .DoDecode ∨ c.get_state u = .Decoding :=
  reachable_waitMapConsistent c h u hu

theorem C6_wait_map_only_transient_witness :
    (⟨[(0, ImageState.Prefetching .DoDecode)], [(0, [7])], none⟩ :
        ImageCache).get_state 0 = .Prefetching .DoDecode
    ∨ (⟨[(0, ImageState.Prefetching .DoDecode)], [(0, [7])], none⟩ :
        ImageCache).get_state 0 = .Decoding :=
  C6_wait_map_only_transient
    ⟨[(0, ImageState.Prefetching .DoDecode)], [(0, [7])], none⟩
    (@Reachable.step ⟨[(0, ImageState.Prefetching .DoDecode)], [], none⟩
      ⟨[(0, ImageState.Prefetching .DoDecode)], [(0, [7])], none⟩
      (.WaitForImage 0 7) []
      (@Reachable.step ⟨[(0, ImageState.Prefetching .DoNotDecode)], [], none⟩
        ⟨[(0, ImageState.Prefetching .DoDecode)], [], none⟩
        (.Decode 0) []
        (@Reachable.step emptyCache
          ⟨[(0, ImageState.Prefetching .DoNotDecode)], [], none⟩
          (.Prefetch 0) [.SpawnPrefetch 0] Reachable.init (by decide))
        (by decide))
      (by decide))
    0 (by decide)

/-- C7: after each dispatched message, if a pending exit channel is
set the loop evaluates the quiescence predicate over the state map's
values; it sends the exit reply and terminates exactly when
quiescent, otherwise it retains the pending channel inside the
continuation state; after the exit reply is sent the remaining
messages are not processed. -/
theorem C7_exit_gating (c : ImageCache) (m : Msg) :
    (∀ c1 evs, c.dispatch m = some (c1, evs) →
        c.step m =
          match c1.need_exit with
          | some response =>
            if c1.canExit then .exited (evs ++ [.ExitReply response])
            else .next c1 evs
          | none => .next c1 evs)
    ∧ (c.dispatch m = none → c.step m = .fatal)
    ∧ (∀ c1 : ImageCache, c1.canExit = true ↔
        ∀ p ∈ c1.state_map, stateBlocksExit p.2 = false)
    ∧ (∀ evs ms, c.step m = .exited evs →
        c.runMsgs (m :: ms) = (evs, .exited)) := by
  refine ⟨?_, ?_, ?_, ?_⟩
  · intro c1 evs hd
    unfold ImageCache.step
    rw [hd]
  · intro hd
    unfold ImageCache.step
    rw [hd]
  · intro c1
    simp [ImageCache.canExit, List.all_eq_true]
  · intro evs ms hs
    unfold ImageCache.runMsgs
    rw [hs]

theorem C7_exit_gating_witness :
    ImageCache.runMsgs ⟨[], [], none⟩ [.Exit 3, .Prefetch 0]
      = ([.ExitReply 3], .exited) :=
  (C7_exit_gating ⟨[], [], none⟩ (.Exit 3)).2.2.2 [.ExitReply 3]
    [.Prefetch 0] (by decide)

/-- Is this event an `ImageNotReady` reply to some consumer? -/
def isNotReadyReply : Event → Bool
  | .Reply _ .ImageNotReady => true
  | _ => false

theorem countP_notReady_purge (c0 : ImageCache) (v : Url)
    (f : ImageResponseMsg) (hf : ∀ w : ChanId, isNotReadyReply (.Reply w f) = false) :
    List.countP isNotReadyReply (c0.purge_waiters v f).2 = 0 := by
  rw [purge_waiters_events]
  cases alistFind v c0.wait_map with
  | none => rfl
  | some ws =>
    simp only [List.countP_eq_zero, List.mem_map]
    rintro e ⟨w, hw, rfl⟩
    simp [hf w]

theorem decode_no_notReady (c : ImageCache) (v : Url)
    (r : ImageCache × List Event) (h : c.decode v = some r) :
    List.countP isNotReadyReply r.2 = 0 := by
  unfold ImageCache.decode at h
  cases hv : c.get_state v with
  | Init => rw [hv] at h; exact Option.noConfusion h
  | Prefetching next =>
    rw [hv] at h
    cases next with
    | DoNotDecode =>
      obtain rfl := (Option.some_inj.mp h).symm
      rfl
    | DoDecode =>
      obtain rfl := (Option.some_inj.mp h).symm
      rfl
  | Prefetched cell =>
    rw [hv] at h
    cases cell with
    | none => exact Option.noConfusion h
    | some data =>
      obtain rfl := (Option.some_inj.mp h).symm
      rfl
  | Decoding =>
    rw [hv] at h
    obtain rfl := (Option.some_inj.mp h).symm
    rfl
  | Decoded img =>
    rw [hv] at h
    obtain rfl := (Option.some_inj.mp h).symm
    rfl
  | Failed =>
    rw [hv] at h
    obtain rfl := (Option.some_inj.mp h).symm
    rfl

theorem dispatch_no_notReady (c : ImageCache) (m : Msg)
    (r : ImageCache × List Event) (h : c.dispatch m = some r)
    (hm : ∀ u ch, m ≠ .GetImage u ch) :
    List.countP isNotReadyReply r.2 = 0 := by
  cases m with
  | Prefetch v =>
    obtain rfl := (Option.some_inj.mp h).symm
    unfold ImageCache.prefetch
    cases hv : c.get_state v with
    | Init => rfl
    | Prefetching next => rfl
    | Prefetched cell => rfl
    | Decoding => rfl
    | Decoded img => rfl
    | Failed => rfl
  | StorePrefetchedImageData v data =>
    replace h : c.store_prefetched_image_data v data = some r := h
    unfold ImageCache.store_prefetched_image_data at h
    cases hv : c.get_state v with
    | Init => rw [hv] at h; exact Option.noConfusion h
    | Prefetched cell => rw [hv] at h; exact Option.noConfusion h
    | Decoding => rw [hv] at h; exact Option.noConfusion h
    | Decoded img => rw [hv] at h; exact Option.noConfusion h
    | Failed => rw [hv] at h; exact Option.noConfusion h
    | Prefetching next =>
      rw [hv] at h
      cases data with
      | ok buf =>
        cases next with
        | DoNotDecode =>
          obtain rfl := (Option.some_inj.mp h).symm
          rfl
        | DoDecode => exact decode_no_notReady _ v r h
      | error e =>
        obtain rfl := (Option.some_inj.mp h).symm
        exact countP_notReady_purge _ v .ImageFailed (fun w => rfl)
  | Decode v => exact decode_no_notReady c v r h
  | StoreImage v image =>
    replace h : c.store_image v image = some r := h
    unfold ImageCache.store_image at h
    cases hv : c.get_state v with
    | Init => rw [hv] at h; exact Option.noConfusion h
    | Prefetching next => rw [hv] at h; exact Option.noConfusion h
    | Prefetched cell => rw [hv] at h; exact Option.noConfusion h
    | Decoded img => rw [hv] at h; exact Option.noConfusion h
    | Failed => rw [hv] at h; exact Option.noConfusion h
    | Decoding =>
      rw [hv] at h
      cases image with
      | some img =>
        obtain rfl := (Option.some_inj.mp h).symm
        exact countP_notReady_purge _ v (.ImageReady img) (fun w => rfl)
      | none =>
        obtain rfl := (Option.some_inj.mp h).symm
        exact countP_notReady_purge _ v .ImageFailed (fun w => rfl)
  | GetImage v ch => exact absurd rfl (hm v ch)
  | WaitForImage v ch =>
    replace h : c.wait_for_image v ch = some r := h
    unfold ImageCache.wait_for_image at h
    cases hv : c.get_state v with
    | Init => rw [hv] at h; exact Option.noConfusion h
    | Prefetched cell => rw [hv] at h; exact Option.noConfusion h
    | Prefetching next =>
      rw [hv] at h
      cases next with
      | DoNotDecode => exact Option.noConfusion h
      | DoDecode =>
        cases hw : alistFind v c.wait_map with
        | some waiters =>
          rw [hw] at h
          obtain rfl := (Option.some_inj.mp h).symm
          rfl
        | none =>
          rw [hw] at h
          obtain rfl := (Option.some_inj.mp h).symm
          rfl
    | Decoding =>
      rw [hv] at h
      cases hw : alistFind v c.wait_map with
      | some waiters =>
        rw [hw] at h
        obtain rfl := (Option.some_inj.mp h).symm
        rfl
      | none =>
        rw [hw] at h
        obtain rfl := (Option.some_inj.mp h).symm
        rfl
    | Decoded img =>
      rw [hv] at h
      obtain rfl := (Option.some_inj.mp h).symm
      rfl
    | Failed =>
      rw [hv] at h
      obtain rfl := (Option.some_inj.mp h).symm
      rfl
  | OnMsg =>
    obtain rfl := (Option.some_inj.mp h).symm
    rfl
  | Exit response =>
    unfold ImageCache.dispatch at h
    cases hne : c.need_exit with
    | some ch => rw [hne] at h; exact Option.noConfusion h
    | none =>
      rw [hne] at h
      obtain rfl := (Option.some_inj.mp h).symm
      rfl

theorem runMsgs_no_notReady :
    ∀ (ms : List Msg) (c : ImageCache),
      (∀ m ∈ ms, ∀ u ch, m ≠ Msg.GetImage u ch) →
      List.countP isNotReadyReply (c.runMsgs ms).1 = 0 := by
  intro ms
  induction ms with
  | nil => intro c hms; rfl
  | cons m ms ih =>
    intro c hms
    unfold ImageCache.runMsgs
    cases hs : c.step m with
    | fatal => rfl
    | exited evs =>
      obtain ⟨r, response, hd, hne, hce, hevs⟩ := step_exited_inv hs
      have h0 := dispatch_no_notReady c m r hd
        (hms m (List.mem_cons_self m ms))
      subst hevs
      simp [List.countP_append, h0, List.countP_cons, isNotReadyReply]
    | next c1 evs =>
      have hd := step_next_inv hs
      have h0 := dispatch_no_notReady c m (c1, evs) hd
        (hms m (List.mem_cons_self m ms))
      have h1 := ih c1 (fun m' hm' => hms m' (List.mem_cons_of_mem m hm'))
      simp only [List.countP_append, h0, h1]

theorem syncForward_no_getImage (ms : List Msg) :
    ∀ m ∈ syncForward ms, ∀ u ch, m ≠ .GetImage u ch := by
  induction ms with
  | nil => intro m hm; simp [syncForward] at hm
  | cons m0 rest ih =>
    intro m hm u ch
    cases m0 with
    | Prefetch v =>
      rcases List.mem_cons.mp hm with rfl | hm'
      · exact fun hc => Msg.noConfusion hc
      · exact ih m hm' u ch
    | StorePrefetchedImageData v data =>
      rcases List.mem_cons.mp hm with rfl | hm'
      · exact fun hc => Msg.noConfusion hc
      · exact ih m hm' u ch
    | Decode v =>
      rcases List.mem_cons.mp hm with rfl | hm'
      · exact fun hc => Msg.noConfusion hc
      · exact ih m hm' u ch
    | StoreImage v image =>
      rcases List.mem_cons.mp hm with rfl | hm'
      · exact fun hc => Msg.noConfusion hc
      · exact ih m hm' u ch
    | GetImage v ch0 =>
      rcases List.mem_cons.mp hm with rfl | hm'
      · exact fun hc => Msg.noConfusion hc
      · exact ih m hm' u ch
    | WaitForImage v ch0 =>
      rcases List.mem_cons.mp hm with rfl | hm'
      · exact fun hc => Msg.noConfusion hc
      · exact ih m hm' u ch
    | OnMsg =>
      rcases List.mem_cons.mp hm with rfl | hm'
      · exact fun hc => Msg.noConfusion hc
      · exact ih m hm' u ch
    | Exit r =>
      rcases List.mem_singleton.mp hm with rfl
      exact fun hc => Msg.noConfusion hc

theorem syncForward_eq_spec : ∀ ms : List Msg,
    syncForward ms = syncForwardSpec ms := by
  intro ms
  induction ms with
  | nil => rfl
  | cons m rest ih =>
    cases m <;> simp [syncForward, syncForwardSpec, rewriteMsgSpec, ih]

/-- C8: the synchronous wrapper forwards the message stream with the
single substitution `GetImage(u, reply)` into `WaitForImage(u, reply)`
and stops forwarding after `Exit` (proved equal to the forwarding
described by the spec); consequently no run of the child cache on a
forwarded stream ever emits an `ImageNotReady` reply, and the
Prefetch/Decode/GetImage scenario through the wrapper yields
`ImageReady`. -/
theorem C8_sync_wrapper (ms : List Msg) (c : ImageCache) :
    syncForward ms = syncForwardSpec ms
    ∧ List.countP isNotReadyReply (c.runMsgs (syncForward ms)).1 = 0
    ∧ (emptyCache.runMsgs (syncForward [.Prefetch 0, .Decode 0]
          ++ [.StorePrefetchedImageData 0 (.ok [9]), .StoreImage 0 (some 7)]
          ++ syncForward [.GetImage 0 5])).1
        = [.SpawnPrefetch 0, .SpawnDecode 0 [9], .Reply 5 (.ImageReady 7)] :=
  ⟨syncForward_eq_spec ms,
   runMsgs_no_notReady (syncForward ms) c (syncForward_no_getImage ms),
   by decide⟩
